import Mathlib

/-
  Verification development for the Simple-3D-Viewer ingestion pipeline
  (frontend/src/App.tsx / SceneCanvas.tsx).

  The definitions below are a shallow embedding of the TypeScript source:
  pure functions become Lean functions, the stateful `loadFiles` callback
  becomes an explicit state-passing function that additionally returns the
  chronological list of observable effects (URL creation/revocation,
  disposal, decode attempts), and the external three.js decoders are
  modelled by an oracle describing their outcome.  JavaScript numbers that
  only ever hold integer counts are modelled by `Nat`; fractional
  accumulators (triangle counts) are modelled by `ℚ`.
-/

set_option autoImplicit false

namespace Viewer

/-! ## Extension resolution (`getExtension`, `pickMainFile`) -/

/-- `filename.split(".")` (JS `String.prototype.split` with separator `"."`),
on the character list of the string.  The result is always non-empty. -/
def splitOnDot : List Char → List (List Char)
  | [] => [[]]
  | c :: cs =>
    match splitOnDot cs with
    | [] => [[]]
    | p :: ps => if c = '.' then [] :: p :: ps else (c :: p) :: ps

/-- `getExtension` (App source): `filename.split(".")`; fewer than two parts
give `""`; otherwise the last part, lower-cased.  `Char.toLower` agrees with
JS `toLowerCase` on the ASCII extensions involved. -/
def getExtension (filename : String) : List Char :=
  let parts := splitOnDot filename.data
  if parts.length < 2 then [] else parts.getLast!.map Char.toLower

/-- `SUPPORTED_FORMATS` from the App source. -/
def SUPPORTED_FORMATS : List (List Char) :=
  [ "drc".data, "glb".data, "gltf".data, "obj".data,
    "ply".data, "stl".data, "usd".data, "usdz".data ]

/-- `FORMAT_PRIORITY` from the App source. -/
def FORMAT_PRIORITY : List (List Char) :=
  [ "gltf".data, "glb".data, "usdz".data, "usd".data,
    "drc".data, "obj".data, "ply".data, "stl".data ]

/-- The sort key used in `pickMainFile`:
`FORMAT_PRIORITY.indexOf(ext)`, with `-1` replaced by `999`. -/
def formatScore (ext : List Char) : Nat :=
  match FORMAT_PRIORITY.findIdx? (· == ext) with
  | some i => i
  | none => 999

/-- A user-supplied file; only the name participates in the logic under
verification (byte contents are consumed by the external decoders). -/
structure SFile where
  name : String
deriving DecidableEq

/-- The comparator `(scoreA === -1 ? 999 : scoreA) - (scoreB === -1 ? 999 : scoreB)`
from `pickMainFile`, as the total preorder it induces. -/
def fileLE (a b : SFile) : Prop :=
  formatScore (getExtension a.name) ≤ formatScore (getExtension b.name)

instance : DecidableRel fileLE := fun _ _ =>
  inferInstanceAs (Decidable (_ ≤ _))

instance : IsTotal SFile fileLE := ⟨fun _ _ => Nat.le_total _ _⟩

instance : IsTrans SFile fileLE := ⟨fun _ _ _ => Nat.le_trans⟩

/-- `pickMainFile` (App source): stable-sort the files by `formatScore`
(JS `Array.prototype.sort` is stable and, for the consistent comparator
above, produces the unique stable `fileLE`-sorted permutation, which
insertion sort realizes), then take the first file whose extension is
supported. -/
def pickMainFile (files : List SFile) : Option SFile :=
  (List.insertionSort fileLE files).find?
    (fun f => decide (getExtension f.name ∈ SUPPORTED_FORMATS))

/-! ## Performance-hint classifier (`getPerformanceHint`) -/

inductive HintLevel where
  | info
  | good
  | medium
  | high
  | extreme
deriving DecidableEq

/-- `getPerformanceHint` (App source), keeping the `level` field; the
`message` field is a localized string irrelevant to the classification.
`!triangles` on a non-negative integer is `triangles = 0`. -/
def getPerformanceHint (triangles : Nat) : HintLevel :=
  if triangles = 0 then .info
  else if triangles < 50000 then .good
  else if triangles < 200000 then .medium
  else if triangles < 500000 then .high
  else .extreme

/-! ## Helper lemmas for `pickMainFile` -/

theorem find?_min {p : SFile → Bool} {f : SFile} :
    ∀ {l : List SFile}, l.Sorted fileLE → l.find? p = some f →
      ∀ g ∈ l, p g = true → fileLE f g := by
  intro l
  induction l with
  | nil => intro _ h; simp at h
  | cons x xs ih =>
    intro hs hf g hg hp
    rw [List.sorted_cons] at hs
    by_cases hx : p x = true
    · rw [List.find?_cons_of_pos _ hx] at hf
      cases hf
      rcases List.mem_cons.mp hg with rfl | hmem
      · exact Nat.le_refl _
      · exact hs.1 g hmem
    · rw [List.find?_cons_of_neg _ (by simpa using hx)] at hf
      rcases List.mem_cons.mp hg with rfl | hmem
      · exact absurd hp hx
      · exact ih hs.2 hf g hmem hp

theorem find?_of_filter_singleton {p : SFile → Bool} {f : SFile} :
    ∀ {l : List SFile}, l.filter p = [f] → l.find? p = some f := by
  intro l
  induction l with
  | nil => intro h; simp at h
  | cons x xs ih =>
    intro h
    by_cases hx : p x = true
    · rw [List.filter_cons_of_pos hx] at h
      injection h with h1 h2
      subst h1
      rw [List.find?_cons_of_pos _ hx]
    · rw [List.filter_cons_of_neg (by simpa using hx)] at h
      rw [List.find?_cons_of_neg _ (by simpa using hx)]
      exact ih h

/-! ## Claim C3: main-file selection -/

/-- C3: for every non-empty file set, `pickMainFile` picks a supported file of
minimal rank in the fixed priority order `gltf, glb, usdz, usd, drc, obj, ply,
stl`; a set containing exactly one supported file (plus arbitrarily many
unsupported ones) yields that file regardless of position; and
`{scene.gltf, scene.obj}` yields `scene.gltf`. -/
theorem pickMainFile_priority :
    (∀ files f, pickMainFile files = some f →
      f ∈ files ∧ getExtension f.name ∈ SUPPORTED_FORMATS ∧
        ∀ g ∈ files, getExtension g.name ∈ SUPPORTED_FORMATS →
          formatScore (getExtension f.name) ≤ formatScore (getExtension g.name)) ∧
    (∀ files f,
      files.filter (fun g => decide (getExtension g.name ∈ SUPPORTED_FORMATS)) = [f] →
      pickMainFile files = some f) ∧
    pickMainFile [⟨"scene.gltf"⟩, ⟨"scene.obj"⟩] = some ⟨"scene.gltf"⟩ := by
  refine ⟨?_, ?_, by decide⟩
  · intro files f hf
    have hperm := List.perm_insertionSort fileLE files
    have hmem := List.mem_of_find?_eq_some hf
    have hp := List.find?_some hf
    refine ⟨hperm.mem_iff.mp hmem, by simpa using hp, ?_⟩
    intro g hg hgsup
    exact find?_min (List.sorted_insertionSort fileLE files) hf g
      (hperm.mem_iff.mpr hg) (by simpa using hgsup)
  · intro files f hfilter
    have hperm := List.perm_insertionSort fileLE files
    have : (List.insertionSort fileLE files).filter
        (fun g => decide (getExtension g.name ∈ SUPPORTED_FORMATS)) = [f] :=
      List.perm_singleton.mp ((hperm.filter _).trans (hfilter ▸ List.Perm.refl _))
    exact find?_of_filter_singleton this

/-- Witness for C3: a set with exactly one supported file (`a.ply`, in second
position among unsupported files) yields that file. -/
theorem pickMainFile_priority_witness :
    pickMainFile [⟨"tex.png"⟩, ⟨"a.ply"⟩, ⟨"n.bin"⟩] = some ⟨"a.ply"⟩ :=
  pickMainFile_priority.2.1 _ _ (by decide)

/-! ## Claim C6: performance-hint tiers -/

/-- C6: the classifier returns `info` at 0, `good` on (0, 50000), `medium` on
[50000, 200000), `high` on [200000, 500000), `extreme` from 500000 on; in
particular 50000 is `medium`. -/
theorem getPerformanceHint_tiers :
    ∀ t : Nat,
      (t = 0 → getPerformanceHint t = .info) ∧
      (0 < t → t < 50000 → getPerformanceHint t = .good) ∧
      (50000 ≤ t → t < 200000 → getPerformanceHint t = .medium) ∧
      (200000 ≤ t → t < 500000 → getPerformanceHint t = .high) ∧
      (500000 ≤ t → getPerformanceHint t = .extreme) ∧
      getPerformanceHint 50000 = .medium := by
  intro t
  refine ⟨?_, ?_, ?_, ?_, ?_, by decide⟩ <;>
    · intros
      simp only [getPerformanceHint]
      split_ifs <;> first | rfl | omega

/-- Witness for C6: the boundary value 50000 classifies as `medium`. -/
theorem getPerformanceHint_tiers_witness :
    getPerformanceHint 50000 = .medium :=
  (getPerformanceHint_tiers 50000).2.2.1 (by decide) (by decide)

/-! ## JSON-like values

`unknown` payloads (`userData`, glTF `extras`).  JS `undefined` is modelled
as `Option.none` at use sites; `null` is `JValue.null`. -/

inductive JValue where
  | null
  | bool (b : Bool)
  | num (q : ℚ)
  | str (s : String)
  | arr (xs : List JValue)
  | obj (fields : List (String × JValue))

/-! ## Materials, geometries, meshes, scene graph -/

inductive Side where
  | front
  | back
  | double
deriving DecidableEq

/-- A three.js material, restricted to the fields the pipeline reads or
writes.  `metalness`/`roughness`: the outer `Option` is presence of the
property on the material (`"metalness" in material`), the inner `Option`
is its value, `none` standing for JS `null`/`undefined` (the `??=` case).
`dispose()` is modelled by the `disposed` flag. -/
structure Material where
  metalness : Option (Option ℚ)
  roughness : Option (Option ℚ)
  side : Side
  disposed : Bool
  userData : JValue
  uuid : String
  matName : String

/-- `mesh.material` in three.js: a single (possibly null) material or an
array of materials. -/
inductive MatSlot where
  | single (m : Option Material)
  | mats (ms : List Material)

/-- A buffer geometry, restricted to what the pipeline reads:
`position`/`index` are the element counts of the position attribute and
index buffer (absent when the attribute/buffer is absent), `morphNames`
the names of the first morph-attribute kind's targets (absent when the
geometry has no morph attributes). -/
structure Geometry where
  position : Option Nat
  index : Option Nat
  hasColorAttr : Bool
  morphNames : Option (List String)
  disposed : Bool

/-- The mesh-specific fields of a scene-graph node. -/
structure MeshData where
  geometry : Option Geometry
  material : MatSlot
  morphTargetDictionary : Option (List (String × Nat))
  morphTargetInfluences : Option (List ℚ)
  castShadow : Bool
  receiveShadow : Bool

/-- A three.js `Object3D` tree: `mesh = some _` iff `isMesh` holds for the
node.  `traverse` visits the node itself, then its children, recursively
(preorder). -/
inductive Obj3D where
  | node (name uuid : String) (userData : JValue) (mesh : Option MeshData)
      (children : List Obj3D)

def Obj3D.nodeName : Obj3D → String
  | .node n _ _ _ _ => n

def Obj3D.uuid : Obj3D → String
  | .node _ u _ _ _ => u

def Obj3D.userData : Obj3D → JValue
  | .node _ _ d _ _ => d

def Obj3D.mesh : Obj3D → Option MeshData
  | .node _ _ _ m _ => m

def Obj3D.children : Obj3D → List Obj3D
  | .node _ _ _ _ cs => cs

/- The meshes of a tree in `traverse` (preorder) order. -/
mutual

def meshList : Obj3D → List MeshData
  | .node _ _ _ m cs => (match m with | some md => [md] | none => []) ++ meshListAll cs

def meshListAll : List Obj3D → List MeshData
  | [] => []
  | c :: cs => meshList c ++ meshListAll cs

end

/- All nodes of a tree, the root included, in `traverse` order. -/
mutual

def allNodes : Obj3D → List Obj3D
  | .node n u d m cs => .node n u d m cs :: allNodesAll cs

def allNodesAll : List Obj3D → List Obj3D
  | [] => []
  | c :: cs => allNodes c ++ allNodesAll cs

end

/-! ## `disposeObject` -/

def disposeMaterial (m : Material) : Material :=
  { m with disposed := true }

def disposeSlot : MatSlot → MatSlot
  | .single none => .single none
  | .single (some m) => .single (some (disposeMaterial m))
  | .mats ms => .mats (ms.map disposeMaterial)

def disposeMesh (md : MeshData) : MeshData :=
  { md with
    geometry := md.geometry.map (fun g => { g with disposed := true }),
    material := disposeSlot md.material }

/- `disposeObject` (App source): traverse, dispose every mesh's geometry
and its material(s). -/
mutual

def disposeObject : Obj3D → Obj3D
  | .node n u d m cs => .node n u d (m.map disposeMesh) (disposeObjectAll cs)

def disposeObjectAll : List Obj3D → List Obj3D
  | [] => []
  | c :: cs => disposeObject c :: disposeObjectAll cs

end

/-! ## `prepareMeshMaterial` and the normalization pass -/

/-- The per-material body of `prepareMeshMaterial`:
`material.metalness ??= 0.1`, `material.roughness ??= 0.6`,
`material.side = THREE.DoubleSide`. -/
def prepareMaterial (m : Material) : Material :=
  { m with
    metalness := match m.metalness with
      | some none => some (some (1 / 10 : ℚ))
      | other => other
    roughness := match m.roughness with
      | some none => some (some (3 / 5 : ℚ))
      | other => other
    side := .double }

/-- `prepareMeshMaterial` (App source): wrap a lone material into a
singleton list, skip null entries, apply `prepareMaterial` to each. -/
def prepareMeshMaterial : MatSlot → MatSlot
  | .single none => .single none
  | .single (some m) => .single (some (prepareMaterial m))
  | .mats ms => .mats (ms.map prepareMaterial)

/-- `Object.assign`-style association update used for
`morphTargetDictionary[name] = m` (later duplicate names overwrite). -/
def setAssoc : List (String × Nat) → String → Nat → List (String × Nat)
  | [], n, i => [(n, i)]
  | (k, v) :: rest, n, i =>
    if k = n then (k, i) :: rest else (k, v) :: setAssoc rest n i

/-- three.js `Mesh.prototype.updateMorphTargets` (library call made by the
source): when the geometry has morph attributes, reset
`morphTargetInfluences` to zeros and rebuild `morphTargetDictionary` from
the first morph-attribute kind's target names (`attr.name || String(m)`);
otherwise leave the mesh unchanged.  three.js meshes always carry a
geometry; the `none` case is unreachable in the real flow. -/
def updateMorphTargets (md : MeshData) : MeshData :=
  match md.geometry with
  | none => md
  | some g =>
    match g.morphNames with
    | none => md
    | some names =>
      { md with
        morphTargetInfluences := some (names.map (fun _ => (0 : ℚ))),
        morphTargetDictionary := some (names.enum.foldl
          (fun d p => setAssoc d (if p.2 = "" then toString p.1 else p.2) p.1) []) }

/-- The per-mesh body of the normalization pass in `loadFiles`
(`castShadow`/`receiveShadow`, `prepareMeshMaterial`,
`updateMorphTargets`). -/
def normalizeMesh (md : MeshData) : MeshData :=
  updateMorphTargets
    { md with
      castShadow := true
      receiveShadow := true
      material := prepareMeshMaterial md.material }

/- The normalization pass (`loadedObject.traverse` in `loadFiles`):
apply `normalizeMesh` to every mesh node, touch nothing else. -/
mutual

def normalizeObject : Obj3D → Obj3D
  | .node n u d m cs => .node n u d (m.map normalizeMesh) (normalizeAll cs)

def normalizeAll : List Obj3D → List Obj3D
  | [] => []
  | c :: cs => normalizeObject c :: normalizeAll cs

end

/- The tree with all mesh payloads erased: the non-mesh data (names,
uuids, userData, tree shape) of a scene graph. -/
mutual

def stripMesh : Obj3D → Obj3D
  | .node n u d _ cs => .node n u d none (stripMeshAll cs)

def stripMeshAll : List Obj3D → List Obj3D
  | [] => []
  | c :: cs => stripMesh c :: stripMeshAll cs

end

/- `true` when the tree contains no mesh node. -/
mutual

def meshFree : Obj3D → Bool
  | .node _ _ _ m cs => m.isNone && meshFreeAll cs

def meshFreeAll : List Obj3D → Bool
  | [] => true
  | c :: cs => meshFree c && meshFreeAll cs

end

/-! ## `getModelStats` -/

/-- The result record of `getModelStats`.  The bounding-box `size` vector
(computed by three.js `Box3.setFromObject`) is geometric library code
outside the claims and is not modelled. -/
structure ModelStats where
  triangles : ℤ
  vertices : Nat
  meshes : Nat
  materials : Nat
deriving DecidableEq

/-- The mutable accumulator of `getModelStats` (the `triangles` counter
accumulates fractional thirds; JS float accumulation is modelled by exact
rationals). -/
structure StatsAcc where
  triangles : ℚ
  vertices : Nat
  meshes : Nat
  materials : Nat

/-- The `traverse` callback body of `getModelStats` for a mesh node. -/
def statsStep (acc : StatsAcc) (md : MeshData) : StatsAcc :=
  let acc1 := { acc with meshes := acc.meshes + 1 }
  let acc2 :=
    match md.geometry with
    | none => acc1
    | some g =>
      match g.position with
      | none => acc1
      | some p =>
        { acc1 with
          vertices := acc1.vertices + p
          triangles := acc1.triangles +
            (match g.index with
             | some length => (length : ℚ) / 3
             | none => (p : ℚ) / 3) }
  match md.material with
  | .mats ms => { acc2 with materials := acc2.materials + ms.length }
  | .single (some _) => { acc2 with materials := acc2.materials + 1 }
  | .single none => acc2

/-- `getModelStats` (App source): accumulate over all meshes, then
`Math.round` the triangle total (`round` in Mathlib rounds halves up,
as JS `Math.round` does). -/
def getModelStats (o : Obj3D) : ModelStats :=
  let acc := (meshList o).foldl statsStep ⟨0, 0, 0, 0⟩
  { triangles := round acc.triangles
    vertices := acc.vertices
    meshes := acc.meshes
    materials := acc.materials }

/-! ## Claim C5: statistics collector -/

/-- Per-mesh triangle contribution as the spec states it: index-buffer
length divided by 3 when an index buffer exists, position count divided by
3 otherwise (nothing is contributed without a position attribute). -/
def meshTriangleContribution (md : MeshData) : ℚ :=
  match md.geometry with
  | none => 0
  | some g =>
    match g.position with
    | none => 0
    | some p =>
      match g.index with
      | some length => (length : ℚ) / 3
      | none => (p : ℚ) / 3

/-- Per-mesh vertex contribution: the position attribute's element count. -/
def meshVertexContribution (md : MeshData) : Nat :=
  match md.geometry with
  | none => 0
  | some g =>
    match g.position with
    | none => 0
    | some p => p

theorem statsStep_triangles (acc : StatsAcc) (md : MeshData) :
    (statsStep acc md).triangles = acc.triangles + meshTriangleContribution md := by
  rcases md with ⟨geo, mat, _, _, _, _⟩
  rcases geo with _ | ⟨pos, idx, _, _, _⟩
  · cases mat with
    | single m => cases m <;> simp [statsStep, meshTriangleContribution]
    | mats ms => simp [statsStep, meshTriangleContribution]
  · rcases pos with _ | p <;> rcases idx with _ | i <;>
      · cases mat with
        | single m => cases m <;> simp [statsStep, meshTriangleContribution]
        | mats ms => simp [statsStep, meshTriangleContribution]

theorem statsStep_vertices (acc : StatsAcc) (md : MeshData) :
    (statsStep acc md).vertices = acc.vertices + meshVertexContribution md := by
  rcases md with ⟨geo, mat, _, _, _, _⟩
  rcases geo with _ | ⟨pos, idx, _, _, _⟩
  · cases mat with
    | single m => cases m <;> simp [statsStep, meshVertexContribution]
    | mats ms => simp [statsStep, meshVertexContribution]
  · rcases pos with _ | p <;> rcases idx with _ | i <;>
      · cases mat with
        | single m => cases m <;> simp [statsStep, meshVertexContribution]
        | mats ms => simp [statsStep, meshVertexContribution]

theorem foldl_statsStep_triangles (l : List MeshData) :
    ∀ acc : StatsAcc, (l.foldl statsStep acc).triangles
      = acc.triangles + (l.map meshTriangleContribution).sum := by
  induction l with
  | nil => intro acc; simp
  | cons md l ih =>
    intro acc
    simp only [List.foldl_cons, List.map_cons, List.sum_cons]
    rw [ih, statsStep_triangles]
    ring

theorem foldl_statsStep_vertices (l : List MeshData) :
    ∀ acc : StatsAcc, (l.foldl statsStep acc).vertices
      = acc.vertices + (l.map meshVertexContribution).sum := by
  induction l with
  | nil => intro acc; simp
  | cons md l ih =>
    intro acc
    simp only [List.foldl_cons, List.map_cons, List.sum_cons]
    rw [ih, statsStep_vertices]
    omega

/-- C5: for every scene graph, the statistics collector adds, per mesh, the
position-attribute element count to the vertex total and, for the triangle
total, index-length/3 when an index buffer exists and position-count/3
otherwise; the final triangle total is the rounded (at the end) sum and the
vertex total is the (integral) sum. -/
theorem getModelStats_counts (o : Obj3D) :
    (getModelStats o).triangles
      = round ((meshList o).map meshTriangleContribution).sum ∧
    (getModelStats o).vertices
      = ((meshList o).map meshVertexContribution).sum := by
  constructor
  · show round ((meshList o).foldl statsStep ⟨0, 0, 0, 0⟩).triangles = _
    rw [foldl_statsStep_triangles]
    norm_num
  · show ((meshList o).foldl statsStep ⟨0, 0, 0, 0⟩).vertices = _
    rw [foldl_statsStep_vertices]
    simp

/-! ## Claim C9: normalization pass -/

theorem prepareMaterial_idem (m : Material) :
    prepareMaterial (prepareMaterial m) = prepareMaterial m := by
  obtain ⟨mt, rg, _, _, _, _, _⟩ := m
  rcases mt with _ | _ | q <;> rcases rg with _ | _ | q' <;> rfl

theorem prepareMeshMaterial_idem (s : MatSlot) :
    prepareMeshMaterial (prepareMeshMaterial s) = prepareMeshMaterial s := by
  cases s with
  | single m =>
    cases m with
    | none => rfl
    | some m => simp [prepareMeshMaterial, prepareMaterial_idem]
  | mats ms =>
    simp only [prepareMeshMaterial, List.map_map]
    exact congrArg MatSlot.mats
      (List.map_congr_left (fun a _ => prepareMaterial_idem a))

theorem normalizeMesh_idem (md : MeshData) :
    normalizeMesh (normalizeMesh md) = normalizeMesh md := by
  rcases md with ⟨geo, mat, dict, infl, cs, rs⟩
  rcases geo with _ | ⟨pos, idx, col, mn, dis⟩
  · simp [normalizeMesh, updateMorphTargets, prepareMeshMaterial_idem]
  · rcases mn with _ | names <;>
      simp [normalizeMesh, updateMorphTargets, prepareMeshMaterial_idem]

mutual

theorem normalizeObject_idem : ∀ o, normalizeObject (normalizeObject o) = normalizeObject o
  | .node n u d m cs => by
    cases m <;> simp [normalizeObject, normalizeAll_idem cs, normalizeMesh_idem]

theorem normalizeAll_idem : ∀ l, normalizeAll (normalizeAll l) = normalizeAll l
  | [] => rfl
  | c :: cs => by
    simp [normalizeAll, normalizeObject_idem c, normalizeAll_idem cs]

end

mutual

theorem stripMesh_normalize : ∀ o, stripMesh (normalizeObject o) = stripMesh o
  | .node n u d m cs => by
    simp [normalizeObject, stripMesh, stripMeshAll_normalize cs]

theorem stripMeshAll_normalize : ∀ l, stripMeshAll (normalizeAll l) = stripMeshAll l
  | [] => rfl
  | c :: cs => by
    simp [normalizeAll, stripMeshAll, stripMesh_normalize c, stripMeshAll_normalize cs]

end

mutual

theorem normalizeObject_meshFree : ∀ o, meshFree o = true → normalizeObject o = o
  | .node n u d none cs => fun h => by
    have h' : meshFreeAll cs = true := by simpa [meshFree] using h
    simp [normalizeObject, normalizeAll_meshFree cs h']
  | .node n u d (some md) cs => fun h => by simp [meshFree] at h

theorem normalizeAll_meshFree : ∀ l, meshFreeAll l = true → normalizeAll l = l
  | [] => fun _ => rfl
  | c :: cs => fun h => by
    rw [meshFreeAll, Bool.and_eq_true] at h
    simp [normalizeAll, normalizeObject_meshFree c h.1, normalizeAll_meshFree cs h.2]

end

/-- C9: the scene-normalization pass (shadow flags, material defaulting of
metalness 0.1 / roughness 0.6 when unset, forced double-sided rendering,
morph bookkeeping initialization) is idempotent; it preserves all non-mesh
data (names, uuids, userData, tree shape); and on a graph with no mesh
nodes it is the identity. -/
theorem normalizePass_idempotent :
    (∀ o, normalizeObject (normalizeObject o) = normalizeObject o) ∧
    (∀ o, stripMesh (normalizeObject o) = stripMesh o) ∧
    (∀ o, meshFree o = true → normalizeObject o = o) :=
  ⟨normalizeObject_idem, stripMesh_normalize, normalizeObject_meshFree⟩

/-- Witness for C9: a concrete mesh-free node is left unchanged by the
normalization pass. -/
theorem normalizePass_idempotent_witness :
    meshFree (Obj3D.node "root" "u0" .null none []) = true ∧
    normalizeObject (Obj3D.node "root" "u0" .null none [])
      = Obj3D.node "root" "u0" .null none [] :=
  ⟨by decide, normalizePass_idempotent.2.2 _ (by decide)⟩

/-! ## Morph-target binder (`collectMorphTargets`) and mutations -/

/-- A `MorphBinding` of the source; the mesh reference becomes the mesh's
position in `traverse` order. -/
structure MorphBinding where
  meshIdx : Nat
  index : Nat
deriving DecidableEq

/-- A `MorphTargetInfo` of the source. -/
structure MorphTargetInfo where
  name : String
  bindings : List MorphBinding
deriving DecidableEq

/-- The influence arrays of the meshes of one model, in `traverse` order
(`none` for a mesh without `morphTargetInfluences`).  This is the state the
morph mutations act on. -/
def MorphState : Type := List (Option (List ℚ))

/-- The meshes after the lazy initialization step of `collectMorphTargets`
(`if (!mesh.morphTargetInfluences) mesh.updateMorphTargets?.()`). -/
def updatedMeshes (o : Obj3D) : List MeshData :=
  (meshList o).map
    (fun md => if md.morphTargetInfluences.isNone then updateMorphTargets md else md)

/-- `map.get(name).push({mesh, index})`, with `map.set(name, [])` on a
missing key: JS `Map` keeps key insertion order and appends the binding. -/
def insertBinding : List MorphTargetInfo → String → MorphBinding → List MorphTargetInfo
  | [], n, b => [⟨n, [b]⟩]
  | t :: ts, n, b =>
    if t.name = n then ⟨t.name, t.bindings ++ [b]⟩ :: ts
    else t :: insertBinding ts n b

/-- The per-mesh body of `collectMorphTargets`: skip meshes without a
dictionary or influence array, otherwise insert one binding per dictionary
entry. -/
def collectStep (idx : Nat) (md : MeshData)
    (acc : List MorphTargetInfo) : List MorphTargetInfo :=
  match md.morphTargetDictionary, md.morphTargetInfluences with
  | some d, some _ => d.foldl (fun a p => insertBinding a p.1 ⟨idx, p.2⟩) acc
  | _, _ => acc

def collectGo : Nat → List MeshData → List MorphTargetInfo → List MorphTargetInfo
  | _, [], acc => acc
  | i, md :: ms, acc => collectGo (i + 1) ms (collectStep i md acc)

/-- `collectMorphTargets` (App source): traverse the meshes, lazily
initialize morph bookkeeping, and build the name → bindings table in
first-appearance order. -/
def collectMorphTargets (o : Obj3D) : List MorphTargetInfo :=
  collectGo 0 (updatedMeshes o) []

/-- The influence arrays as they stand when the table is built. -/
def initMorphState (o : Obj3D) : MorphState :=
  (updatedMeshes o).map (·.morphTargetInfluences)

/-- `mesh.morphTargetInfluences[index] = value` for the mesh at slot `m`
(skipping meshes without an influence array, as the source does). -/
def writeSlot (st : MorphState) (m i : Nat) (v : ℚ) : MorphState :=
  match List.get? st m with
  | some (some arr) => List.set st m (some (arr.set i v))
  | _ => st

/-- Reading `mesh.morphTargetInfluences[index]` for the mesh at slot `m`. -/
def readSlot (st : MorphState) (m i : Nat) : Option ℚ :=
  match List.get? st m with
  | some (some arr) => arr.get? i
  | _ => none

/-- The per-target loop body of `applyMorphValue`. -/
def applyToTarget (name : String) (value : ℚ) (exclusive : Bool)
    (st : MorphState) (t : MorphTargetInfo) : MorphState :=
  t.bindings.foldl
    (fun st b =>
      if exclusive ∧ t.name ≠ name then writeSlot st b.meshIdx b.index 0
      else if t.name = name then writeSlot st b.meshIdx b.index value
      else st)
    st

/-- `applyMorphValue` (App source), influence-array part: for every target
and binding, write `0` when exclusive and the name differs, write `value`
when the name matches. -/
def applyMorphValue (targets : List MorphTargetInfo) (name : String) (value : ℚ)
    (exclusive : Bool) (st : MorphState) : MorphState :=
  targets.foldl (applyToTarget name value exclusive) st

/-- `next[k] = v` on the `morphValues` record. -/
def updVal (f : String → Option ℚ) (k : String) (v : ℚ) : String → Option ℚ :=
  fun n => if n = k then some v else f n

/-- `applyMorphValue` (App source), `setMorphValues` part. -/
def applyMorphValues (targets : List MorphTargetInfo) (name : String) (value : ℚ)
    (exclusive : Bool) (prev : String → Option ℚ) : String → Option ℚ :=
  if exclusive then
    targets.foldl (fun f t => updVal f t.name (if t.name = name then value else 0)) prev
  else updVal prev name value

/-- The per-target loop body of `resetMorphTargets`. -/
def resetTarget (st : MorphState) (t : MorphTargetInfo) : MorphState :=
  t.bindings.foldl (fun st b => writeSlot st b.meshIdx b.index 0) st

/-- `resetMorphTargets` (App source), influence-array part. -/
def resetMorphTargets (targets : List MorphTargetInfo) (st : MorphState) : MorphState :=
  targets.foldl resetTarget st

/-- `resetMorphTargets` (App source), `setMorphValues` part. -/
def resetMorphValues (targets : List MorphTargetInfo)
    (prev : String → Option ℚ) : String → Option ℚ :=
  targets.foldl (fun f t => updVal f t.name 0) prev

/-! ## Claim C10: mutations for an undiscovered name -/

theorem applyToTarget_other {name : String} {t : MorphTargetInfo}
    (hne : t.name ≠ name) (v : ℚ) (st : MorphState) :
    applyToTarget name v false st t = st := by
  have hbody : ∀ (l : List MorphBinding) (st : MorphState),
      l.foldl
        (fun st b =>
          if (false : Bool) ∧ t.name ≠ name then writeSlot st b.meshIdx b.index 0
          else if t.name = name then writeSlot st b.meshIdx b.index v
          else st)
        st = st := by
    intro l
    induction l with
    | nil => intro st; rfl
    | cons b bs ih =>
      intro st
      simp only [List.foldl_cons]
      rw [if_neg (by simp), if_neg hne]
      exact ih st
  exact hbody t.bindings st

theorem applyToTarget_exclusive_other {name : String} {t : MorphTargetInfo}
    (hne : t.name ≠ name) (v : ℚ) (st : MorphState) :
    applyToTarget name v true st t = resetTarget st t := by
  unfold applyToTarget resetTarget
  have hbody : (fun (st : MorphState) (b : MorphBinding) =>
      if (true : Bool) ∧ t.name ≠ name then writeSlot st b.meshIdx b.index 0
      else if t.name = name then writeSlot st b.meshIdx b.index v
      else st) = fun st b => writeSlot st b.meshIdx b.index 0 := by
    funext st b
    rw [if_pos ⟨rfl, hne⟩]
  rw [hbody]

theorem foldl_updVal_zero (name : String) (v : ℚ) :
    ∀ (l : List MorphTargetInfo) (prev : String → Option ℚ) (n : String),
      (∀ t ∈ l, t.name ≠ name) →
      (l.foldl (fun f t => updVal f t.name (if t.name = name then v else 0)) prev) n
        = if n ∈ l.map MorphTargetInfo.name then some 0 else prev n := by
  intro l
  induction l with
  | nil => intro prev n _; simp
  | cons t0 ts ih =>
    intro prev n h
    have h0 : t0.name ≠ name := h t0 (by simp)
    have hts : ∀ t ∈ ts, t.name ≠ name := fun t ht => h t (by simp [ht])
    simp only [List.foldl_cons, if_neg h0]
    rw [ih _ n hts]
    by_cases hn : n ∈ ts.map MorphTargetInfo.name
    · simp [hn]
    · by_cases he : n = t0.name <;> simp [hn, he, updVal]

/-- C10: for a `name` that is not among the discovered morph-target names,
`Set(name, v)` leaves every influence array unchanged; `SetExclusive(name, v)`
acts on the influence arrays exactly as `ResetAll()` does; and the exclusive
call records `0` for every discovered name in the value table. -/
theorem morph_unknown_name (targets : List MorphTargetInfo) (name : String)
    (h : name ∉ targets.map MorphTargetInfo.name) :
    (∀ v st, applyMorphValue targets name v false st = st) ∧
    (∀ v st, applyMorphValue targets name v true st = resetMorphTargets targets st) ∧
    (∀ v prev, ∀ t ∈ targets,
      applyMorphValues targets name v true prev t.name = some 0) := by
  have hnames : ∀ t ∈ targets, t.name ≠ name := by
    intro t ht he
    exact h (he ▸ List.mem_map_of_mem MorphTargetInfo.name ht)
  have part1 : ∀ v : ℚ, ∀ (l : List MorphTargetInfo), (∀ t ∈ l, t.name ≠ name) →
      ∀ st, List.foldl (applyToTarget name v false) st l = st := by
    intro v l
    induction l with
    | nil => intro _ st; rfl
    | cons t ts ih =>
      intro hl st
      simp only [List.foldl_cons]
      rw [applyToTarget_other (hl t (by simp)) v st]
      exact ih (fun t' ht' => hl t' (by simp [ht'])) _
  have part2 : ∀ v : ℚ, ∀ (l : List MorphTargetInfo), (∀ t ∈ l, t.name ≠ name) →
      ∀ st, List.foldl (applyToTarget name v true) st l = List.foldl resetTarget st l := by
    intro v l
    induction l with
    | nil => intro _ st; rfl
    | cons t ts ih =>
      intro hl st
      simp only [List.foldl_cons]
      rw [applyToTarget_exclusive_other (hl t (by simp)) v st]
      exact ih (fun t' ht' => hl t' (by simp [ht'])) _
  refine ⟨fun v st => part1 v targets hnames st,
    fun v st => part2 v targets hnames st, ?_⟩
  intro v prev t ht
  unfold applyMorphValues
  rw [if_pos rfl, foldl_updVal_zero name v targets prev t.name hnames,
    if_pos (List.mem_map_of_mem MorphTargetInfo.name ht)]

/-- Witness for C10: a concrete table discovering only `"A"`, driven with the
undiscovered name `"X"`. -/
theorem morph_unknown_name_witness :
    applyMorphValue [⟨"A", [⟨0, 0⟩]⟩] "X" (1 / 2) false [some [(1 / 4 : ℚ)]]
      = [some [(1 / 4 : ℚ)]] ∧
    applyMorphValue [⟨"A", [⟨0, 0⟩]⟩] "X" (1 / 2) true [some [(1 / 4 : ℚ)]]
      = resetMorphTargets [⟨"A", [⟨0, 0⟩]⟩] [some [(1 / 4 : ℚ)]] ∧
    applyMorphValues [⟨"A", [⟨0, 0⟩]⟩] "X" (1 / 2) true (fun _ => none) "A"
      = some 0 :=
  ⟨(morph_unknown_name [⟨"A", [⟨0, 0⟩]⟩] "X" (by decide)).1 _ _,
   (morph_unknown_name [⟨"A", [⟨0, 0⟩]⟩] "X" (by decide)).2.1 _ _,
   (morph_unknown_name [⟨"A", [⟨0, 0⟩]⟩] "X" (by decide)).2.2 (1 / 2)
     (fun _ => none) ⟨"A", [⟨0, 0⟩]⟩ (by decide)⟩

/-! ## Claim C7: `SetExclusive("A", 1)` then `Set("B", 0.4)` -/

/-- The slot `(m, i)` denotes an existing entry of an existing influence
array of the state. -/
def ValidSlot (st : MorphState) (m i : Nat) : Prop :=
  ∃ arr, List.get? st m = some (some arr) ∧ i < arr.length

/-- The target `t` has a binding for the slot `(m, i)`. -/
def slotInT (t : MorphTargetInfo) (m i : Nat) : Prop :=
  ∃ b ∈ t.bindings, b.meshIdx = m ∧ b.index = i

theorem writeSlot_get?_ne {st : MorphState} {m m' : Nat} (h : m' ≠ m)
    (i : Nat) (v : ℚ) :
    List.get? (writeSlot st m i v) m' = List.get? st m' := by
  unfold writeSlot
  cases hg : List.get? st m with
  | none => rfl
  | some o =>
    cases o with
    | none => rfl
    | some arr => exact List.get?_set_ne _ _ (Ne.symm h)

theorem writeSlot_get?_self {st : MorphState} {m : Nat} {arr : List ℚ}
    (hg : List.get? st m = some (some arr)) (i : Nat) (v : ℚ) :
    List.get? (writeSlot st m i v) m = some (some (arr.set i v)) := by
  unfold writeSlot
  rw [hg]
  obtain ⟨hlt, -⟩ := List.get?_eq_some.mp hg
  exact List.get?_set_eq_of_lt _ hlt

theorem writeSlot_validSlot {st : MorphState} {m' i' : Nat}
    (hv : ValidSlot st m' i') (m i : Nat) (v : ℚ) :
    ValidSlot (writeSlot st m i v) m' i' := by
  obtain ⟨arr, hg, hlen⟩ := hv
  by_cases hm : m' = m
  · subst hm
    exact ⟨arr.set i v, writeSlot_get?_self hg i v, by simpa using hlen⟩
  · exact ⟨arr, by rw [writeSlot_get?_ne hm]; exact hg, hlen⟩

theorem readSlot_writeSlot_same {st : MorphState} {m i : Nat}
    (hv : ValidSlot st m i) (v : ℚ) :
    readSlot (writeSlot st m i v) m i = some v := by
  obtain ⟨arr, hg, hlen⟩ := hv
  unfold readSlot
  rw [writeSlot_get?_self hg i v]
  exact List.get?_set_eq_of_lt v hlen

theorem readSlot_writeSlot_other {st : MorphState} {m i m' i' : Nat}
    (h : ¬(m = m' ∧ i = i')) (v : ℚ) :
    readSlot (writeSlot st m i v) m' i' = readSlot st m' i' := by
  by_cases hm : m = m'
  · subst hm
    have hi : i ≠ i' := fun e => h ⟨rfl, e⟩
    cases hg : List.get? st m with
    | none => rw [show writeSlot st m i v = st by unfold writeSlot; rw [hg]]
    | some o =>
      cases o with
      | none => rw [show writeSlot st m i v = st by unfold writeSlot; rw [hg]]
      | some arr =>
        unfold readSlot
        rw [writeSlot_get?_self hg i v, hg]
        show (arr.set i v).get? i' = arr.get? i'
        exact List.get?_set_ne _ _ hi
  · unfold readSlot
    rw [writeSlot_get?_ne (Ne.symm hm)]

theorem foldl_write_notin (w : ℚ) :
    ∀ (l : List MorphBinding) (st : MorphState) (m i : Nat),
      (∀ b ∈ l, ¬(b.meshIdx = m ∧ b.index = i)) →
      readSlot (l.foldl (fun st b => writeSlot st b.meshIdx b.index w) st) m i
        = readSlot st m i := by
  intro l
  induction l with
  | nil => intro st m i _; rfl
  | cons b bs ih =>
    intro st m i h
    simp only [List.foldl_cons]
    rw [ih _ _ _ (fun b' hb' => h b' (by simp [hb']))]
    exact readSlot_writeSlot_other (h b (by simp)) w

theorem foldl_write_valid (w : ℚ) :
    ∀ (l : List MorphBinding) (st : MorphState) (m i : Nat),
      ValidSlot st m i →
      ValidSlot (l.foldl (fun st b => writeSlot st b.meshIdx b.index w) st) m i := by
  intro l
  induction l with
  | nil => intro st m i hv; exact hv
  | cons b bs ih =>
    intro st m i hv
    simp only [List.foldl_cons]
    exact ih _ _ _ (writeSlot_validSlot hv _ _ _)

theorem foldl_write_in (w : ℚ) :
    ∀ (l : List MorphBinding) (st : MorphState) (m i : Nat),
      ValidSlot st m i → (∃ b ∈ l, b.meshIdx = m ∧ b.index = i) →
      readSlot (l.foldl (fun st b => writeSlot st b.meshIdx b.index w) st) m i
        = some w := by
  intro l
  induction l with
  | nil => intro st m i _ hex; simp at hex
  | cons b bs ih =>
    intro st m i hv hex
    simp only [List.foldl_cons]
    by_cases hbs : ∃ b' ∈ bs, b'.meshIdx = m ∧ b'.index = i
    · exact ih _ _ _ (writeSlot_validSlot hv _ _ _) hbs
    · obtain ⟨b0, hb0, hslot⟩ := hex
      have hb : b.meshIdx = m ∧ b.index = i := by
        rcases List.mem_cons.mp hb0 with rfl | hmem
        · exact hslot
        · exact absurd ⟨b0, hmem, hslot⟩ hbs
      rw [foldl_write_notin w bs _ m i (fun b' hb' hc => hbs ⟨b', hb', hc⟩)]
      rw [hb.1, hb.2]
      exact readSlot_writeSlot_same hv w

theorem applyToTarget_body_match {name : String} {t : MorphTargetInfo}
    (h : t.name = name) (v : ℚ) (excl : Bool) (st : MorphState) :
    applyToTarget name v excl st t
      = t.bindings.foldl (fun st b => writeSlot st b.meshIdx b.index v) st := by
  unfold applyToTarget
  have hbody : (fun (st : MorphState) (b : MorphBinding) =>
      if excl ∧ t.name ≠ name then writeSlot st b.meshIdx b.index 0
      else if t.name = name then writeSlot st b.meshIdx b.index v
      else st) = fun st b => writeSlot st b.meshIdx b.index v := by
    funext st b
    rw [if_neg (fun hc => hc.2 h), if_pos h]
  rw [hbody]

theorem resetTarget_eq_foldl (st : MorphState) (t : MorphTargetInfo) :
    resetTarget st t
      = t.bindings.foldl (fun st b => writeSlot st b.meshIdx b.index 0) st := rfl

theorem applyToTarget_read_notin {name : String} {v : ℚ} {excl : Bool}
    {st : MorphState} {t : MorphTargetInfo} {m i : Nat} (h : ¬ slotInT t m i) :
    readSlot (applyToTarget name v excl st t) m i = readSlot st m i := by
  have hslots : ∀ b ∈ t.bindings, ¬(b.meshIdx = m ∧ b.index = i) :=
    fun b hb hc => h ⟨b, hb, hc⟩
  by_cases hn : t.name = name
  · rw [applyToTarget_body_match hn]
    exact foldl_write_notin v _ _ _ _ hslots
  · cases excl with
    | false => rw [applyToTarget_other hn]
    | true =>
      rw [applyToTarget_exclusive_other hn, resetTarget_eq_foldl]
      exact foldl_write_notin 0 _ _ _ _ hslots

theorem applyToTarget_valid {name : String} {v : ℚ} {excl : Bool}
    {st : MorphState} {m i : Nat} (t : MorphTargetInfo) (hv : ValidSlot st m i) :
    ValidSlot (applyToTarget name v excl st t) m i := by
  by_cases hn : t.name = name
  · rw [applyToTarget_body_match hn]
    exact foldl_write_valid v _ _ _ _ hv
  · cases excl with
    | false => rw [applyToTarget_other hn]; exact hv
    | true =>
      rw [applyToTarget_exclusive_other hn, resetTarget_eq_foldl]
      exact foldl_write_valid 0 _ _ _ _ hv

theorem applyToTarget_read_in {name : String} {v : ℚ} {excl : Bool}
    {st : MorphState} {t : MorphTargetInfo} {m i : Nat}
    (hv : ValidSlot st m i) (hin : slotInT t m i) :
    readSlot (applyToTarget name v excl st t) m i
      = if excl ∧ t.name ≠ name then some 0
        else if t.name = name then some v
        else readSlot st m i := by
  by_cases hn : t.name = name
  · rw [applyToTarget_body_match hn, if_neg (fun hc => hc.2 hn), if_pos hn]
    exact foldl_write_in v _ _ _ _ hv hin
  · cases excl with
    | false =>
      rw [applyToTarget_other hn,
        if_neg (fun hc => Bool.noConfusion hc.1), if_neg hn]
    | true =>
      rw [applyToTarget_exclusive_other hn, resetTarget_eq_foldl,
        if_pos ⟨rfl, hn⟩]
      exact foldl_write_in 0 _ _ _ _ hv hin

theorem applyMorphValue_read_notin {name : String} {v : ℚ} {excl : Bool} {m i : Nat} :
    ∀ (targets : List MorphTargetInfo) (st : MorphState),
      (∀ t ∈ targets, ¬ slotInT t m i) →
      readSlot (applyMorphValue targets name v excl st) m i = readSlot st m i := by
  intro targets
  induction targets with
  | nil => intro st _; rfl
  | cons t0 ts ih =>
    intro st h
    show readSlot
      (applyMorphValue ts name v excl (applyToTarget name v excl st t0)) m i = _
    rw [ih _ (fun t' ht' => h t' (by simp [ht']))]
    exact applyToTarget_read_notin (h t0 (by simp))

theorem applyMorphValue_valid {name : String} {v : ℚ} {excl : Bool} {m i : Nat} :
    ∀ (targets : List MorphTargetInfo) (st : MorphState),
      ValidSlot st m i → ValidSlot (applyMorphValue targets name v excl st) m i := by
  intro targets
  induction targets with
  | nil => intro st hv; exact hv
  | cons t0 ts ih =>
    intro st hv
    exact ih _ (applyToTarget_valid t0 hv)

/-- The pairwise slot-disjointness that discovered tables enjoy. -/
def SlotDisjoint (targets : List MorphTargetInfo) : Prop :=
  targets.Pairwise (fun t₁ t₂ => ∀ m i, slotInT t₁ m i → slotInT t₂ m i → False)

theorem applyMorphValue_read_in {name : String} {v : ℚ} {excl : Bool} {m i : Nat} :
    ∀ (targets : List MorphTargetInfo) (st : MorphState) (t : MorphTargetInfo),
      SlotDisjoint targets → t ∈ targets → slotInT t m i → ValidSlot st m i →
      readSlot (applyMorphValue targets name v excl st) m i
        = if excl ∧ t.name ≠ name then some 0
          else if t.name = name then some v
          else readSlot st m i := by
  intro targets
  induction targets with
  | nil => intro st t _ ht; simp at ht
  | cons t0 ts ih =>
    intro st t hd ht hin hv
    rw [SlotDisjoint, List.pairwise_cons] at hd
    rcases List.mem_cons.mp ht with rfl | hmem
    · have h1 : readSlot (applyMorphValue (t :: ts) name v excl st) m i
          = readSlot (applyToTarget name v excl st t) m i := by
        show readSlot
          (applyMorphValue ts name v excl (applyToTarget name v excl st t)) m i = _
        exact applyMorphValue_read_notin ts _
          (fun t' ht' hin' => hd.1 t' ht' m i hin hin')
      rw [h1]
      exact applyToTarget_read_in hv hin
    · have hnotin0 : ¬ slotInT t0 m i := fun hin0 => hd.1 t hmem m i hin0 hin
      have h1 : readSlot (applyMorphValue (t0 :: ts) name v excl st) m i
          = readSlot (applyMorphValue ts name v excl (applyToTarget name v excl st t0)) m i := rfl
      rw [h1, ih _ t hd.2 hmem hin (applyToTarget_valid t0 hv),
        applyToTarget_read_notin hnotin0]

/-- A binding recorded under name `n` really comes from the dictionary of
the mesh it points at. -/
def BindingSound (ms : List MeshData) (n : String) (b : MorphBinding) : Prop :=
  ∃ md, List.get? ms b.meshIdx = some md ∧
    ∃ d infl, md.morphTargetDictionary = some d ∧
      md.morphTargetInfluences = some infl ∧ (n, b.index) ∈ d

def TableSound (ms : List MeshData) (acc : List MorphTargetInfo) : Prop :=
  ∀ t ∈ acc, ∀ b ∈ t.bindings, BindingSound ms t.name b

theorem insertBinding_sound {P : String → MorphBinding → Prop} :
    ∀ (acc : List MorphTargetInfo) (n : String) (b : MorphBinding),
      (∀ t ∈ acc, ∀ b' ∈ t.bindings, P t.name b') → P n b →
      ∀ t ∈ insertBinding acc n b, ∀ b' ∈ t.bindings, P t.name b' := by
  intro acc
  induction acc with
  | nil =>
    intro n b _ hb t ht b' hb'
    simp only [insertBinding, List.mem_singleton] at ht
    subst ht
    simp only [List.mem_singleton] at hb'
    subst hb'
    exact hb
  | cons t0 ts ih =>
    intro n b hacc hb t ht b' hb'
    unfold insertBinding at ht
    by_cases h : t0.name = n
    · rw [if_pos h] at ht
      rcases List.mem_cons.mp ht with rfl | hmem
      · rcases List.mem_append.mp hb' with h1 | h2
        · exact hacc t0 (by simp) b' h1
        · simp only [List.mem_singleton] at h2
          subst h2
          exact h ▸ hb
      · exact hacc t (by simp [hmem]) b' hb'
    · rw [if_neg h] at ht
      rcases List.mem_cons.mp ht with rfl | hmem
      · exact hacc t (by simp) b' hb'
      · exact ih n b (fun t' ht' => hacc t' (by simp [ht'])) hb t hmem b' hb'

theorem collectStep_sound {ms : List MeshData} {idx : Nat} {md : MeshData}
    (hmd : List.get? ms idx = some md) {acc : List MorphTargetInfo}
    (hacc : TableSound ms acc) :
    TableSound ms (collectStep idx md acc) := by
  unfold collectStep
  cases hd : md.morphTargetDictionary with
  | none => exact hacc
  | some d =>
    cases hi : md.morphTargetInfluences with
    | none => exact hacc
    | some infl =>
      have hgen : ∀ (l : List (String × Nat)), (∀ p ∈ l, p ∈ d) →
          ∀ acc, TableSound ms acc →
          TableSound ms
            (l.foldl (fun a p => insertBinding a p.1 ⟨idx, p.2⟩) acc) := by
        intro l
        induction l with
        | nil => intro _ acc h; exact h
        | cons p ps ihp =>
          intro hsub acc h
          simp only [List.foldl_cons]
          refine ihp (fun q hq => hsub q (by simp [hq])) _ ?_
          intro t ht b' hb'
          refine insertBinding_sound acc p.1 ⟨idx, p.2⟩ h ?_ t ht b' hb'
          exact ⟨md, hmd, d, infl, hd, hi, by simpa using hsub p (by simp)⟩
      exact hgen d (fun p hp => hp) acc hacc

theorem collectGo_sound (full : List MeshData) :
    ∀ (ms : List MeshData) (i : Nat) (acc : List MorphTargetInfo),
      (∀ j md, List.get? ms j = some md → List.get? full (i + j) = some md) →
      TableSound full acc → TableSound full (collectGo i ms acc) := by
  intro ms
  induction ms with
  | nil => intro i acc _ hacc; exact hacc
  | cons md ms ih =>
    intro i acc hrel hacc
    unfold collectGo
    refine ih (i + 1) _ ?_ (collectStep_sound ?_ hacc)
    · intro j md' hj
      have h1 := hrel (j + 1) md' hj
      have h2 : i + (j + 1) = i + 1 + j := by omega
      rw [h2] at h1
      exact h1
    · have h0 := hrel 0 md rfl
      rw [Nat.add_zero] at h0
      exact h0

theorem collect_sound (o : Obj3D) :
    TableSound (updatedMeshes o) (collectMorphTargets o) := by
  refine collectGo_sound (updatedMeshes o) (updatedMeshes o) 0 [] ?_ ?_
  · intro j md hj; simpa using hj
  · intro t ht; simp at ht

theorem insertBinding_names (acc : List MorphTargetInfo) (n : String) (b : MorphBinding) :
    (insertBinding acc n b).map MorphTargetInfo.name
      = if n ∈ acc.map MorphTargetInfo.name then acc.map MorphTargetInfo.name
        else acc.map MorphTargetInfo.name ++ [n] := by
  induction acc with
  | nil => simp [insertBinding]
  | cons t ts ih =>
    by_cases h : t.name = n
    · rw [show insertBinding (t :: ts) n b
          = ⟨t.name, t.bindings ++ [b]⟩ :: ts by unfold insertBinding; rw [if_pos h]]
      rw [if_pos (by simp [h])]
      rfl
    · rw [show insertBinding (t :: ts) n b = t :: insertBinding ts n b by
        conv_lhs => rw [insertBinding]
        rw [if_neg h]]
      simp only [List.map_cons, ih]
      by_cases h2 : n ∈ ts.map MorphTargetInfo.name
      · rw [if_pos h2, if_pos (by simp [h2])]
      · rw [if_neg h2, if_neg ?_]
        · rfl
        · simp only [List.mem_cons]
          rintro (he | hm)
          · exact h he.symm
          · exact h2 hm

theorem insertBinding_nodup {acc : List MorphTargetInfo} (n : String) (b : MorphBinding)
    (h : (acc.map MorphTargetInfo.name).Nodup) :
    ((insertBinding acc n b).map MorphTargetInfo.name).Nodup := by
  rw [insertBinding_names]
  by_cases h2 : n ∈ acc.map MorphTargetInfo.name
  · rw [if_pos h2]; exact h
  · rw [if_neg h2]
    simp [List.nodup_append, h, h2]

theorem collectStep_nodup (idx : Nat) (md : MeshData) :
    ∀ (acc : List MorphTargetInfo), (acc.map MorphTargetInfo.name).Nodup →
      ((collectStep idx md acc).map MorphTargetInfo.name).Nodup := by
  intro acc h
  unfold collectStep
  cases md.morphTargetDictionary with
  | none => exact h
  | some d =>
    cases md.morphTargetInfluences with
    | none => exact h
    | some infl =>
      induction d generalizing acc with
      | nil => exact h
      | cons p ps ihd =>
        exact ihd _ (insertBinding_nodup p.1 ⟨idx, p.2⟩ h)

theorem collectGo_nodup :
    ∀ (ms : List MeshData) (i : Nat) (acc : List MorphTargetInfo),
      (acc.map MorphTargetInfo.name).Nodup →
      ((collectGo i ms acc).map MorphTargetInfo.name).Nodup := by
  intro ms
  induction ms with
  | nil => intro i acc h; exact h
  | cons md ms ih =>
    intro i acc h
    exact ih _ _ (collectStep_nodup i md acc h)

theorem collect_nodup (o : Obj3D) :
    ((collectMorphTargets o).map MorphTargetInfo.name).Nodup :=
  collectGo_nodup (updatedMeshes o) 0 [] (by simp)

/-- The well-formedness of a mesh's morph bookkeeping that three.js
guarantees at discovery time: `updateMorphTargets` and the glTF loader
build `morphTargetDictionary` as `name ↦ index` with pairwise-distinct
indices that index into `morphTargetInfluences`. -/
def meshMorphWF (md : MeshData) : Bool :=
  match md.morphTargetDictionary, md.morphTargetInfluences with
  | some d, some infl =>
    decide ((d.map Prod.snd).Nodup) && d.all (fun p => decide (p.2 < infl.length))
  | _, _ => true

theorem collect_disjoint (o : Obj3D)
    (hwf : ∀ md ∈ updatedMeshes o, meshMorphWF md = true) :
    SlotDisjoint (collectMorphTargets o) := by
  have hnodup := collect_nodup o
  have hpw : (collectMorphTargets o).Pairwise (fun a b => a.name ≠ b.name) :=
    List.pairwise_map.mp hnodup
  refine hpw.imp_of_mem ?_
  intro t₁ t₂ h₁ h₂ hne m i hin₁ hin₂
  obtain ⟨b₁, hb₁, hbm₁, hbi₁⟩ := hin₁
  obtain ⟨b₂, hb₂, hbm₂, hbi₂⟩ := hin₂
  obtain ⟨md₁, hg₁, d₁, infl₁, hd₁, hi₁, hmem₁⟩ := collect_sound o t₁ h₁ b₁ hb₁
  obtain ⟨md₂, hg₂, d₂, infl₂, hd₂, hi₂, hmem₂⟩ := collect_sound o t₂ h₂ b₂ hb₂
  rw [hbm₁] at hg₁
  rw [hbm₂] at hg₂
  have hmd : md₁ = md₂ := Option.some.inj (hg₁.symm.trans hg₂)
  subst hmd
  have hdd : d₁ = d₂ := Option.some.inj (hd₁.symm.trans hd₂)
  subst hdd
  have hw := hwf md₁ (List.get?_mem hg₁)
  unfold meshMorphWF at hw
  rw [hd₁, hi₁] at hw
  simp only [Bool.and_eq_true, decide_eq_true_eq, List.all_eq_true] at hw
  have heq : (t₁.name, i) = (t₂.name, i) :=
    List.inj_on_of_nodup_map hw.1 (hbi₁ ▸ hmem₁) (hbi₂ ▸ hmem₂) rfl
  exact hne (congrArg Prod.fst heq)

theorem collect_valid (o : Obj3D)
    (hwf : ∀ md ∈ updatedMeshes o, meshMorphWF md = true) :
    ∀ t ∈ collectMorphTargets o, ∀ b ∈ t.bindings,
      ValidSlot (initMorphState o) b.meshIdx b.index := by
  intro t ht b hb
  obtain ⟨md, hg, d, infl, hd, hi, hmem⟩ := collect_sound o t ht b hb
  have hw := hwf md (List.get?_mem hg)
  unfold meshMorphWF at hw
  rw [hd, hi] at hw
  simp only [Bool.and_eq_true, decide_eq_true_eq, List.all_eq_true] at hw
  refine ⟨infl, ?_, ?_⟩
  · unfold initMorphState
    rw [List.get?_map, hg]
    simp [hi]
  · have := hw.2 (t.name, b.index) hmem
    simpa using this

/-- C7: for every discovered morph-binding table (discovered from a scene
graph whose morph bookkeeping is well-formed, as three.js discovery
guarantees) containing names "A" and "B", `SetExclusive("A", 1)` followed by
`Set("B", 0.4)` leaves every binding of "A" at 1, every binding of "B" at
0.4, and every binding of every other discovered name at 0. -/
theorem morph_setExclusive_then_set (o : Obj3D)
    (hwf : ∀ md ∈ updatedMeshes o, meshMorphWF md = true)
    (hA : "A" ∈ (collectMorphTargets o).map MorphTargetInfo.name)
    (hB : "B" ∈ (collectMorphTargets o).map MorphTargetInfo.name) :
    ∀ t ∈ collectMorphTargets o, ∀ b ∈ t.bindings,
      readSlot
        (applyMorphValue (collectMorphTargets o) "B" (2 / 5) false
          (applyMorphValue (collectMorphTargets o) "A" 1 true (initMorphState o)))
        b.meshIdx b.index
      = some (if t.name = "A" then 1 else if t.name = "B" then 2 / 5 else 0) := by
  intro t ht b hb
  have hdisj := collect_disjoint o hwf
  have hv0 : ValidSlot (initMorphState o) b.meshIdx b.index :=
    collect_valid o hwf t ht b hb
  have hin : slotInT t b.meshIdx b.index := ⟨b, hb, rfl, rfl⟩
  have hv1 : ValidSlot
      (applyMorphValue (collectMorphTargets o) "A" 1 true (initMorphState o))
      b.meshIdx b.index :=
    applyMorphValue_valid (collectMorphTargets o) _ hv0
  rw [applyMorphValue_read_in (collectMorphTargets o) _ t hdisj ht hin hv1,
    applyMorphValue_read_in (collectMorphTargets o) _ t hdisj ht hin hv0]
  by_cases hA' : t.name = "A"
  · simp [hA']
  · by_cases hB' : t.name = "B" <;> simp [hA', hB']

/-- A concrete mesh discovering morph names "A", "B", "C", for the C7
witness. -/
def morphWitnessObj : Obj3D :=
  Obj3D.node "m" "u1" .null
    (some
      { geometry := none
        material := .single none
        morphTargetDictionary := some [("A", 0), ("B", 1), ("C", 2)]
        morphTargetInfluences := some [0, 0, 0]
        castShadow := false
        receiveShadow := false })
    []

/-- Witness for C7: on the concrete table discovering "A", "B", "C",
the two calls leave the bindings at 1, 0.4 and 0 respectively. -/
theorem morph_setExclusive_then_set_witness :
    readSlot
      (applyMorphValue (collectMorphTargets morphWitnessObj) "B" (2 / 5) false
        (applyMorphValue (collectMorphTargets morphWitnessObj) "A" 1 true
          (initMorphState morphWitnessObj))) 0 0 = some 1 ∧
    readSlot
      (applyMorphValue (collectMorphTargets morphWitnessObj) "B" (2 / 5) false
        (applyMorphValue (collectMorphTargets morphWitnessObj) "A" 1 true
          (initMorphState morphWitnessObj))) 0 1 = some (2 / 5) ∧
    readSlot
      (applyMorphValue (collectMorphTargets morphWitnessObj) "B" (2 / 5) false
        (applyMorphValue (collectMorphTargets morphWitnessObj) "A" 1 true
          (initMorphState morphWitnessObj))) 0 2 = some 0 := by
  refine ⟨?_, ?_, ?_⟩
  · have h := morph_setExclusive_then_set morphWitnessObj (by decide) (by decide)
      (by decide) ⟨"A", [⟨0, 0⟩]⟩ (by decide) ⟨0, 0⟩ (by decide)
    simpa using h
  · have h := morph_setExclusive_then_set morphWitnessObj (by decide) (by decide)
      (by decide) ⟨"B", [⟨0, 1⟩]⟩ (by decide) ⟨0, 1⟩ (by decide)
    simpa using h
  · have h := morph_setExclusive_then_set morphWitnessObj (by decide) (by decide)
      (by decide) ⟨"C", [⟨0, 2⟩]⟩ (by decide) ⟨0, 2⟩ (by decide)
    simpa using h

/-! ## Custom metadata extractor (`collectGltfCustomSections`) -/

/-- `hasCustomValue` (App source); `none` is JS `undefined`.  `isRecord`
holds exactly for non-null non-array objects, i.e. `JValue.obj`. -/
def hasCustomValue : Option JValue → Bool
  | none => false
  | some .null => false
  | some (.arr xs) => !xs.isEmpty
  | some (.obj fs) => !fs.isEmpty
  | some _ => true

/-- The record case of `stripGltfExtensions`: drop the `gltfExtensions`
key, keep the rest in order. -/
def stripGltfExtensionsVal : JValue → JValue
  | .obj fs => .obj (fs.filter (fun p => decide (p.1 ≠ "gltfExtensions")))
  | v => v

/-- `stripGltfExtensions` (App source): non-records (including
null/undefined) pass through unchanged. -/
def stripGltfExtensions (v : Option JValue) : Option JValue :=
  v.map stripGltfExtensionsVal

inductive SectionId where
  | asset
  | root
  | scene
  | nodes
  | materials
deriving DecidableEq

/-- A `CustomPropertySection` value: a single payload for
`asset`/`root`/`scene`, a named-entry list for `nodes`/`materials`. -/
inductive SectionValue where
  | payload (v : Option JValue)
  | entries (es : List (String × JValue))

structure CustomSection where
  id : SectionId
  value : SectionValue

/-- The glTF decode result (the loader's `GLTF` object), restricted to the
fields `loadFiles` and `collectGltfCustomSections` read. -/
structure GltfModel where
  assetExtras : Option JValue
  jsonAssetExtras : Option JValue
  jsonExtras : Option JValue
  scene : Option Obj3D
  animations : List String

/-- JS `a ?? b`: falls through on both `undefined` and `null`. -/
def nullish : Option JValue → Option JValue → Option JValue
  | none, b => b
  | some .null, b => b
  | some v, _ => some v

/-- `child.name || child.uuid` (empty string is falsy). -/
def displayName (o : Obj3D) : String :=
  if o.nodeName = "" then o.uuid else o.nodeName

/-- The nodes visited by `gltf.scene.traverse` minus the root itself. -/
def descendants (o : Obj3D) : List Obj3D :=
  allNodesAll o.children

/-- The `nodes` entry list of `collectGltfCustomSections`. -/
def nodeEntries (g : GltfModel) : List (String × JValue) :=
  match g.scene with
  | none => []
  | some s =>
    (descendants s).filterMap (fun c =>
      let data := stripGltfExtensionsVal c.userData
      if hasCustomValue (some data) then some (displayName c, data) else none)

/-- `mesh.material` as the list the source iterates
(`Array.isArray(m) ? m : [m]`). -/
def slotMaterials : MatSlot → List (Option Material)
  | .single m => [m]
  | .mats ms => ms.map some

/-- One step of the `materials` collection: skip null materials, skip empty
stripped `userData`, deduplicate by `uuid`. -/
def materialEntriesStep (acc : List (String × JValue) × List String)
    (m? : Option Material) : List (String × JValue) × List String :=
  match m? with
  | none => acc
  | some m =>
    let data := stripGltfExtensionsVal m.userData
    if hasCustomValue (some data) then
      if m.uuid ∈ acc.2 then acc
      else (acc.1 ++ [(if m.matName = "" then m.uuid else m.matName, data)],
            acc.2 ++ [m.uuid])
    else acc

/-- The `materials` entry list of `collectGltfCustomSections`. -/
def materialEntries (g : GltfModel) : List (String × JValue) :=
  match g.scene with
  | none => []
  | some s =>
    ((((meshList s).map (fun md => slotMaterials md.material)).join).foldl
      materialEntriesStep ([], [])).1

/-- `collectGltfCustomSections` (App source): push, in the fixed order
asset, root, scene, nodes, materials, each section whose payload passes
`hasCustomValue` (respectively is a non-empty entry list). -/
def collectGltfCustomSections (g : GltfModel) : List CustomSection :=
  let assetExtras := nullish g.assetExtras g.jsonAssetExtras
  let s1 : List CustomSection :=
    if hasCustomValue assetExtras then [⟨.asset, .payload assetExtras⟩] else []
  let s2 : List CustomSection :=
    if hasCustomValue g.jsonExtras then [⟨.root, .payload g.jsonExtras⟩] else []
  let sceneExtras := stripGltfExtensions (g.scene.map Obj3D.userData)
  let s3 : List CustomSection :=
    if hasCustomValue sceneExtras then [⟨.scene, .payload sceneExtras⟩] else []
  let ne := nodeEntries g
  let s4 : List CustomSection := if ne.isEmpty then [] else [⟨.nodes, .entries ne⟩]
  let me := materialEntries g
  let s5 : List CustomSection := if me.isEmpty then [] else [⟨.materials, .entries me⟩]
  s1 ++ s2 ++ s3 ++ s4 ++ s5

/-! ## `loadFiles` -/

inductive LoadSource where
  | localFile
  | exampleFile
deriving DecidableEq

inductive AppError where
  | unsupported
  | loadFailed
deriving DecidableEq

/-- The `ModelState` record produced by a successful load. -/
structure ModelRec where
  object : Obj3D
  animations : List String
  name : String
  format : List Char
  stats : ModelStats
  customProperties : List CustomSection
  source : LoadSource

/-- The App state touched by `loadFiles`. -/
structure AppState where
  model : Option ModelRec
  error : Option AppError
  loading : Bool
  fitSignal : Nat

/-- Observable effects of one `loadFiles` call, in chronological order. -/
inductive LoadEvent where
  | disposedPrev
  | urlCreated (n : String)
  | decodeAttempt
  | decodeOk
  | decodeFail
  | urlRevoked (n : String)
  | modelSet
deriving DecidableEq

/-- The outcome of the external decoders for one load: which sibling file
names the loader resolves through the `LoadingManager` URL modifier, and
each format-specific decode result (`Except.error` = throw/reject). -/
structure DecodeOracle where
  requested : List String
  gltfResult : Except Unit GltfModel
  objResult : Except Unit Obj3D
  geomResult : Except Unit Geometry
  usdResult : Except Unit Obj3D

/-- Cache-miss insertion of `getUrl`. -/
def dedupInsert (acc : List String) (n : String) : List String :=
  if n ∈ acc then acc else acc ++ [n]

/-- The per-load URL cache keys in insertion order: the main file first
(`getUrl(mainFile)`), then each modifier-resolved request that names a file
of the drop (others pass through unmodified), first occurrence only. -/
def cacheNames (main : String) (requested : List String)
    (fileNames : List String) : List String :=
  (main :: requested.filter (fun n => decide (n ∈ fileNames))).foldl dedupInsert []

/-- `new THREE.Mesh(geometry, material)` for the PLY/STL/DRC branches with
their synthesized `MeshStandardMaterial` (`computeVertexNormals` touches
only normal data, which is not modelled; the PLY `vertexColors` flag is
likewise outside the claims). -/
def wrapGeometry (g : Geometry) (metalness roughness : ℚ) : Obj3D :=
  Obj3D.node "" "" (.obj [])
    (some
      { geometry := some g
        material := .single (some
          { metalness := some (some metalness)
            roughness := some (some roughness)
            side := .front
            disposed := false
            userData := .obj []
            uuid := ""
            matName := "" })
        morphTargetDictionary := none
        morphTargetInfluences := none
        castShadow := false
        receiveShadow := false })
    []

/-- The outcome of the format-dispatch inside the `try` block, by
extension.  `notAttempted` is the defensive `throw new Error("unsupported")`
of the final `else` (unreachable after `pickMainFile`); `okNoScene` is a
glTF decode that resolved without a scene, where `revokeAll()` has already
run and `loadedObject.traverse` then throws on `undefined`;
`threwNoUrls`/`okNoUrls` are the USD branch, which never touches the URL
cache (`loader.parse(await mainFile.arrayBuffer())`). -/
inductive DecodeOutcome where
  | notAttempted
  | threwWithUrls
  | threwNoUrls
  | okNoScene
  | okWithUrls (object : Obj3D) (animations : List String)
      (custom : List CustomSection)
  | okNoUrls (object : Obj3D)

/-- The extension dispatch of `loadFiles` (the `if`/`else if` chain on the
main file's extension), reduced to its observable outcome. -/
def branchOutcome (ext : List Char) (oracle : DecodeOracle) : DecodeOutcome :=
  if ext = "glb".data ∨ ext = "gltf".data then
    match oracle.gltfResult with
    | .error _ => .threwWithUrls
    | .ok gltf =>
      match gltf.scene with
      | none => .okNoScene
      | some s => .okWithUrls s gltf.animations (collectGltfCustomSections gltf)
  else if ext = "obj".data then
    match oracle.objResult with
    | .error _ => .threwWithUrls
    | .ok o => .okWithUrls o [] []
  else if ext = "ply".data then
    match oracle.geomResult with
    | .error _ => .threwWithUrls
    | .ok g => .okWithUrls (wrapGeometry g (1 / 10) (1 / 2)) [] []
  else if ext = "stl".data then
    match oracle.geomResult with
    | .error _ => .threwWithUrls
    | .ok g => .okWithUrls (wrapGeometry g (1 / 20) (11 / 20)) [] []
  else if ext = "drc".data then
    match oracle.geomResult with
    | .error _ => .threwWithUrls
    | .ok g => .okWithUrls (wrapGeometry g (1 / 20) (11 / 20)) [] []
  else if ext = "usd".data ∨ ext = "usdz".data then
    match oracle.usdResult with
    | .error _ => .threwNoUrls
    | .ok o => .okNoUrls o
  else .notAttempted

/-- `loadFiles` (App source) as a state transformer, also returning the
chronological list of observable effects.  Control flow mirrors the source:
empty set → return; no main file → unsupported error, return; otherwise
`try { dispose previous; decode by extension (`branchOutcome`); normalize;
stats; setModel; fit } catch { setError(load) } finally { setLoading(false) }`.
The URL cache holds the main file's handle (created before the decode call)
and the modifier-resolved sibling handles (created during it); `revokeAll()`
runs right after a successful decode on the URL-using branches and on no
other path. -/
def loadFiles (st : AppState) (files : List SFile) (source : LoadSource)
    (oracle : DecodeOracle) : AppState × List LoadEvent :=
  if files.isEmpty then (st, [])
  else
    match pickMainFile files with
    | none => ({ st with error := some .unsupported }, [])
    | some mainFile =>
      let st1 : AppState := { st with loading := true, error := none }
      let st2 : AppState :=
        { st1 with
          model :=
            Option.map (fun m => { m with object := disposeObject m.object })
              st1.model }
      let ev0 : List LoadEvent :=
        match st1.model with
        | some _ => [.disposedPrev]
        | none => []
      let ext := getExtension mainFile.name
      let fileNames := files.map SFile.name
      let urls := cacheNames mainFile.name oracle.requested fileNames
      let evsPre : List LoadEvent :=
        ev0 ++ [.urlCreated mainFile.name, .decodeAttempt]
          ++ urls.tail.map LoadEvent.urlCreated
      let fail : List LoadEvent → AppState × List LoadEvent :=
        fun evs => ({ st2 with error := some .loadFailed, loading := false }, evs)
      let success : Obj3D → List String → List CustomSection → List LoadEvent →
          AppState × List LoadEvent :=
        fun loadedObject animations customProperties evs =>
          let normalized := normalizeObject loadedObject
          ({ st2 with
              model := some
                { object := normalized
                  animations := animations
                  name := mainFile.name
                  format := ext
                  stats := getModelStats normalized
                  customProperties := customProperties
                  source := source }
              loading := false
              error := none
              fitSignal := st2.fitSignal + 1 },
            evs ++ [.modelSet])
      match branchOutcome ext oracle with
      | .notAttempted => fail ev0
      | .threwWithUrls => fail (evsPre ++ [.decodeFail])
      | .threwNoUrls => fail (ev0 ++ [.decodeAttempt, .decodeFail])
      | .okNoScene => fail (evsPre ++ [.decodeOk] ++ urls.map LoadEvent.urlRevoked)
      | .okWithUrls o a c =>
        success o a c (evsPre ++ [.decodeOk] ++ urls.map LoadEvent.urlRevoked)
      | .okNoUrls o => success o [] [] (ev0 ++ [.decodeAttempt, .decodeOk])

/-- The names of the transient blob-URL handles created during a load. -/
def urlsCreated (evs : List LoadEvent) : List String :=
  evs.filterMap (fun e => match e with | .urlCreated n => some n | _ => none)

/-- The names of the handles revoked before the load settles. -/
def urlsRevoked (evs : List LoadEvent) : List String :=
  evs.filterMap (fun e => match e with | .urlRevoked n => some n | _ => none)

/-! ## Helper lemmas about URL events -/

theorem foldl_dedupInsert_prefix :
    ∀ (l acc : List String), ∃ t, l.foldl dedupInsert acc = acc ++ t := by
  intro l
  induction l with
  | nil => intro acc; exact ⟨[], (List.append_nil acc).symm⟩
  | cons n ns ih =>
    intro acc
    obtain ⟨t, ht⟩ := ih (dedupInsert acc n)
    by_cases h : n ∈ acc
    · exact ⟨t, by rw [List.foldl_cons, ht]; simp [dedupInsert, h]⟩
    · refine ⟨n :: t, ?_⟩
      rw [List.foldl_cons, ht]
      simp [dedupInsert, h]

theorem cacheNames_head_tail (main : String) (requested fileNames : List String) :
    main :: (cacheNames main requested fileNames).tail
      = cacheNames main requested fileNames := by
  unfold cacheNames
  rw [List.foldl_cons, show dedupInsert [] main = [main] by simp [dedupInsert]]
  obtain ⟨t, ht⟩ :=
    foldl_dedupInsert_prefix (requested.filter (fun n => decide (n ∈ fileNames))) [main]
  rw [ht]
  rfl

@[simp]
theorem urlsCreated_append (a b : List LoadEvent) :
    urlsCreated (a ++ b) = urlsCreated a ++ urlsCreated b :=
  List.filterMap_append a b _

@[simp]
theorem urlsRevoked_append (a b : List LoadEvent) :
    urlsRevoked (a ++ b) = urlsRevoked a ++ urlsRevoked b :=
  List.filterMap_append a b _

@[simp]
theorem urlsCreated_mapCreated (l : List String) :
    urlsCreated (l.map LoadEvent.urlCreated) = l := by
  induction l with
  | nil => rfl
  | cons n ns ih => simpa [urlsCreated, List.filterMap_cons] using ih

@[simp]
theorem urlsCreated_mapRevoked (l : List String) :
    urlsCreated (l.map LoadEvent.urlRevoked) = [] := by
  induction l with
  | nil => rfl
  | cons n ns ih => simpa [urlsCreated, List.filterMap_cons] using ih

@[simp]
theorem urlsRevoked_mapRevoked (l : List String) :
    urlsRevoked (l.map LoadEvent.urlRevoked) = l := by
  induction l with
  | nil => rfl
  | cons n ns ih => simpa [urlsRevoked, List.filterMap_cons] using ih

@[simp]
theorem urlsRevoked_mapCreated (l : List String) :
    urlsRevoked (l.map LoadEvent.urlCreated) = [] := by
  induction l with
  | nil => rfl
  | cons n ns ih => simpa [urlsRevoked, List.filterMap_cons] using ih

@[simp]
theorem urlsCreated_nil : urlsCreated [] = [] := rfl

@[simp]
theorem urlsRevoked_nil : urlsRevoked [] = [] := rfl

@[simp]
theorem urlsCreated_tail_mapCreated (l : List String) :
    urlsCreated ((l.map LoadEvent.urlCreated).tail) = l.tail := by
  cases l with
  | nil => rfl
  | cons n ns => simp

@[simp]
theorem urlsRevoked_tail_mapCreated (l : List String) :
    urlsRevoked ((l.map LoadEvent.urlCreated).tail) = [] := by
  cases l with
  | nil => rfl
  | cons n ns => simp

@[simp]
theorem decodeOk_not_mem_tail_mapCreated (l : List String) :
    LoadEvent.decodeOk ∉ (l.map LoadEvent.urlCreated).tail := by
  cases l with
  | nil => simp
  | cons n ns => simp

@[simp]
theorem decodeFail_not_mem_tail_mapCreated (l : List String) :
    LoadEvent.decodeFail ∉ (l.map LoadEvent.urlCreated).tail := by
  cases l with
  | nil => simp
  | cons n ns => simp

@[simp]
theorem urlsCreated_cons (e : LoadEvent) (evs : List LoadEvent) :
    urlsCreated (e :: evs)
      = (match e with | .urlCreated n => [n] | _ => []) ++ urlsCreated evs := by
  cases e <;> simp [urlsCreated, List.filterMap_cons]

@[simp]
theorem urlsRevoked_cons (e : LoadEvent) (evs : List LoadEvent) :
    urlsRevoked (e :: evs)
      = (match e with | .urlRevoked n => [n] | _ => []) ++ urlsRevoked evs := by
  cases e <;> simp [urlsRevoked, List.filterMap_cons]

/-! ## Claim C1: URL-handle lifecycle -/

/-- Counterexample to C1 as stated: loading `m.gltf` with a decoder that
throws creates the blob-URL handle for `m.gltf` and revokes nothing — the
handle outlives the failed load. -/
theorem loadFiles_revoke_counterexample :
    urlsCreated (loadFiles ⟨none, none, false, 0⟩ [⟨"m.gltf"⟩] .localFile
      ⟨[], .error (), .error (), .error (), .error ()⟩).2 = ["m.gltf"] ∧
    urlsRevoked (loadFiles ⟨none, none, false, 0⟩ [⟨"m.gltf"⟩] .localFile
      ⟨[], .error (), .error (), .error (), .error ()⟩).2 = [] ∧
    (loadFiles ⟨none, none, false, 0⟩ [⟨"m.gltf"⟩] .localFile
      ⟨[], .error (), .error (), .error (), .error ()⟩).1.error
      = some .loadFailed := by decide

/-- C1 amended: on every load whose decoder call succeeds, every per-load
URL-cache handle is revoked before the load settles (the revoked names equal
the created names); but on the decoder throw/reject path no handle is
revoked at all. -/
theorem loadFiles_url_lifecycle (st : AppState) (files : List SFile)
    (source : LoadSource) (oracle : DecodeOracle) :
    (LoadEvent.decodeOk ∈ (loadFiles st files source oracle).2 →
      urlsRevoked (loadFiles st files source oracle).2
        = urlsCreated (loadFiles st files source oracle).2) ∧
    (LoadEvent.decodeFail ∈ (loadFiles st files source oracle).2 →
      urlsRevoked (loadFiles st files source oracle).2 = []) := by
  obtain ⟨mo, er, lo, fs⟩ := st
  unfold loadFiles
  cases mo <;>
    · split
      · simp
      · split
        · simp
        · dsimp only
          split <;> constructor <;> intro h <;>
            simp_all [cacheNames_head_tail]

/-- A successful glTF decode resolving one sibling file, for the C1
witness. -/
def okGltfOracle : DecodeOracle :=
  ⟨["tex.png", "m.bin"],
    .ok ⟨none, none, none, some (Obj3D.node "s" "" .null none []), []⟩,
    .error (), .error (), .error ()⟩

/-- Witness for C1 (amended): on a successful two-file glTF load both the
main handle and the sibling handle are revoked. -/
theorem loadFiles_url_lifecycle_witness :
    urlsRevoked (loadFiles ⟨none, none, false, 0⟩ [⟨"m.gltf"⟩, ⟨"m.bin"⟩]
        .localFile okGltfOracle).2
      = urlsCreated (loadFiles ⟨none, none, false, 0⟩ [⟨"m.gltf"⟩, ⟨"m.bin"⟩]
        .localFile okGltfOracle).2 :=
  (loadFiles_url_lifecycle ⟨none, none, false, 0⟩ [⟨"m.gltf"⟩, ⟨"m.bin"⟩]
    .localFile okGltfOracle).1 (by decide)

/-! ## Claim C2: dispose-before-decode, failed loads -/

theorem pickMainFile_supported {files : List SFile} {f : SFile}
    (h : pickMainFile files = some f) :
    getExtension f.name ∈ SUPPORTED_FORMATS := by
  have := List.find?_some h
  simpa using this

theorem branchOutcome_attempted {ext : List Char}
    (h : ext ∈ SUPPORTED_FORMATS) (oracle : DecodeOracle) :
    branchOutcome ext oracle ≠ .notAttempted := by
  have hcase : (ext = "glb".data ∨ ext = "gltf".data) ∨ ext = "obj".data ∨
      ext = "ply".data ∨ ext = "stl".data ∨ ext = "drc".data ∨
      (ext = "usd".data ∨ ext = "usdz".data) := by
    simp only [SUPPORTED_FORMATS, List.mem_cons, List.not_mem_nil, or_false] at h
    tauto
  unfold branchOutcome
  rcases hcase with h1 | h2 | h3 | h4 | h5 | h6
  · rw [if_pos h1]
    rcases oracle.gltfResult with e | g
    · simp
    · rcases hs : g.scene with _ | s <;> simp [hs]
  · subst h2
    rw [if_neg (by decide), if_pos rfl]
    rcases oracle.objResult with e | o <;> simp
  · subst h3
    rw [if_neg (by decide), if_neg (by decide), if_pos rfl]
    rcases oracle.geomResult with e | g <;> simp
  · subst h4
    rw [if_neg (by decide), if_neg (by decide), if_neg (by decide), if_pos rfl]
    rcases oracle.geomResult with e | g <;> simp
  · subst h5
    rw [if_neg (by decide), if_neg (by decide), if_neg (by decide),
      if_neg (by decide), if_pos rfl]
    rcases oracle.geomResult with e | g <;> simp
  · rcases h6 with rfl | rfl <;>
      · rw [if_neg (by decide), if_neg (by decide), if_neg (by decide),
          if_neg (by decide), if_neg (by decide), if_pos (by decide)]
        rcases oracle.usdResult with e | o <;> simp

/-- The per-mesh disposal flags `disposeObject` is responsible for. -/
def meshDisposed (md : MeshData) : Bool :=
  (match md.geometry with
   | some g => g.disposed
   | none => true) &&
  (match md.material with
   | .single none => true
   | .single (some m) => m.disposed
   | .mats ms => ms.all (fun m => m.disposed))

/-- Every geometry and material of every mesh of the tree is disposed. -/
def allDisposed (o : Obj3D) : Bool :=
  (meshList o).all meshDisposed

mutual

theorem meshList_disposeObject :
    ∀ o, meshList (disposeObject o) = (meshList o).map disposeMesh
  | .node n u d m cs => by
    cases m <;> simp [disposeObject, meshList, meshListAll_disposeObject cs]

theorem meshListAll_disposeObject :
    ∀ l, meshListAll (disposeObjectAll l) = (meshListAll l).map disposeMesh
  | [] => rfl
  | c :: cs => by
    simp [disposeObjectAll, meshListAll, meshList_disposeObject c,
      meshListAll_disposeObject cs]

end

theorem disposeMesh_disposed (md : MeshData) :
    meshDisposed (disposeMesh md) = true := by
  rcases md with ⟨geo, mat, _, _, _, _⟩
  rcases geo with _ | g <;>
    · cases mat with
      | single m =>
        cases m <;> simp [disposeMesh, meshDisposed, disposeSlot, disposeMaterial]
      | mats ms =>
        simp [disposeMesh, meshDisposed, disposeSlot, disposeMaterial,
          List.all_map, Function.comp]

theorem disposeObject_allDisposed (o : Obj3D) :
    allDisposed (disposeObject o) = true := by
  unfold allDisposed
  rw [meshList_disposeObject, List.all_map]
  simp only [List.all_eq_true]
  intro md hmd
  simpa [Function.comp] using disposeMesh_disposed md

/-- Counterexample to C2 as stated: a failing decode with a previously
active model leaves the previous record still installed as the active model
(`isSome`), not "no active model". -/
theorem loadFiles_failed_model_counterexample :
    ((loadFiles
      ⟨some ⟨Obj3D.node "p" "" (.obj []) none [], [], "old.obj", "obj".data,
        ⟨0, 0, 0, 0⟩, [], .localFile⟩, none, false, 0⟩
      [⟨"m.gltf"⟩] .localFile
      ⟨[], .error (), .error (), .error (), .error ()⟩).1.error
        = some .loadFailed) ∧
    ((loadFiles
      ⟨some ⟨Obj3D.node "p" "" (.obj []) none [], [], "old.obj", "obj".data,
        ⟨0, 0, 0, 0⟩, [], .localFile⟩, none, false, 0⟩
      [⟨"m.gltf"⟩] .localFile
      ⟨[], .error (), .error (), .error (), .error ()⟩).1.model.isSome
        = true) := by decide

/-- C2 amended: with a main file selected and a previously active model,
the previous model's geometries and materials are disposed before the
decode is attempted (the disposal is the first effect of the load, the
decode attempt comes later); if the load then fails, the application keeps
the previous record — its resources now disposed — as the active model,
rather than being left with no active model. -/
theorem loadFiles_dispose_before_decode (st : AppState) (files : List SFile)
    (source : LoadSource) (oracle : DecodeOracle) (m : ModelRec) (f : SFile)
    (hm : st.model = some m) (hf : pickMainFile files = some f) :
    (loadFiles st files source oracle).2.head? = some .disposedPrev ∧
    LoadEvent.decodeAttempt ∈ (loadFiles st files source oracle).2.tail ∧
    ((loadFiles st files source oracle).1.error = some .loadFailed →
      (loadFiles st files source oracle).1.model
        = some { m with object := disposeObject m.object }) ∧
    allDisposed (disposeObject m.object) = true := by
  obtain ⟨mo, er, lo, fs⟩ := st
  simp only at hm
  subst hm
  have hne : files.isEmpty = false := by
    rcases files with _ | ⟨a, l⟩
    · rw [show pickMainFile [] = none from rfl] at hf; cases hf
    · rfl
  have hsup := pickMainFile_supported hf
  unfold loadFiles
  rw [if_neg (by simp [hne]), hf]
  dsimp only
  cases houtc : branchOutcome (getExtension f.name) oracle with
  | notAttempted => exact absurd houtc (branchOutcome_attempted hsup oracle)
  | threwWithUrls => exact ⟨rfl, by simp, fun _ => rfl, disposeObject_allDisposed _⟩
  | threwNoUrls => exact ⟨rfl, by simp, fun _ => rfl, disposeObject_allDisposed _⟩
  | okNoScene => exact ⟨rfl, by simp, fun _ => rfl, disposeObject_allDisposed _⟩
  | okWithUrls o a c => exact ⟨rfl, by simp, by simp, disposeObject_allDisposed _⟩
  | okNoUrls o => exact ⟨rfl, by simp, by simp, disposeObject_allDisposed _⟩

/-- The failing decode oracle used by witnesses. -/
def failOracleW : DecodeOracle := ⟨[], .error (), .error (), .error (), .error ()⟩

/-- The previously active model used by witnesses. -/
def prevRecW : ModelRec :=
  ⟨Obj3D.node "p" "" (.obj []) none [], [], "old.obj", "obj".data,
    ⟨0, 0, 0, 0⟩, [], .localFile⟩

/-- Witness for C2 (amended): a concrete failing glTF load over a prior
model disposes first and keeps the (disposed) prior record installed. -/
theorem loadFiles_dispose_before_decode_witness :
    (loadFiles ⟨some prevRecW, none, false, 0⟩ [⟨"m.gltf"⟩] .localFile
        failOracleW).2.head? = some .disposedPrev ∧
    LoadEvent.decodeAttempt ∈ (loadFiles ⟨some prevRecW, none, false, 0⟩
        [⟨"m.gltf"⟩] .localFile failOracleW).2.tail ∧
    ((loadFiles ⟨some prevRecW, none, false, 0⟩ [⟨"m.gltf"⟩] .localFile
        failOracleW).1.error = some .loadFailed →
      (loadFiles ⟨some prevRecW, none, false, 0⟩ [⟨"m.gltf"⟩] .localFile
        failOracleW).1.model
        = some { prevRecW with object := disposeObject prevRecW.object }) ∧
    allDisposed (disposeObject prevRecW.object) = true :=
  loadFiles_dispose_before_decode ⟨some prevRecW, none, false, 0⟩ [⟨"m.gltf"⟩]
    .localFile failOracleW prevRecW ⟨"m.gltf"⟩ rfl (by decide)

/-! ## Claim C4: no supported extension -/

/-- C4: for every non-empty file set in which no file has a supported
extension, the load reports the unsupported-format failure, performs no
decode (no effects at all), and leaves the prior active model and its
resources untouched. -/
theorem loadFiles_no_supported (st : AppState) (files : List SFile)
    (source : LoadSource) (oracle : DecodeOracle)
    (hne : files ≠ [])
    (hunsup : ∀ f ∈ files, getExtension f.name ∉ SUPPORTED_FORMATS) :
    (loadFiles st files source oracle).1.error = some .unsupported ∧
    (loadFiles st files source oracle).1.model = st.model ∧
    (loadFiles st files source oracle).2 = [] := by
  have hpick : pickMainFile files = none := by
    unfold pickMainFile
    rw [List.find?_eq_none]
    intro f hf
    simp only [decide_eq_true_eq]
    exact hunsup f ((List.perm_insertionSort fileLE files).mem_iff.mp hf)
  unfold loadFiles
  rw [if_neg (by simp [List.isEmpty_iff, hne]), hpick]
  exact ⟨rfl, rfl, rfl⟩

/-- Witness for C4: two unsupported files over a prior model. -/
theorem loadFiles_no_supported_witness :
    (loadFiles ⟨some prevRecW, none, false, 0⟩ [⟨"a.txt"⟩, ⟨"b.png"⟩]
        .localFile failOracleW).1.error = some .unsupported ∧
    (loadFiles ⟨some prevRecW, none, false, 0⟩ [⟨"a.txt"⟩, ⟨"b.png"⟩]
        .localFile failOracleW).1.model
      = (⟨some prevRecW, none, false, 0⟩ : AppState).model ∧
    (loadFiles ⟨some prevRecW, none, false, 0⟩ [⟨"a.txt"⟩, ⟨"b.png"⟩]
        .localFile failOracleW).2 = [] :=
  loadFiles_no_supported ⟨some prevRecW, none, false, 0⟩ [⟨"a.txt"⟩, ⟨"b.png"⟩]
    .localFile failOracleW (by decide) (by decide)

/-! ## Claim C8: custom-metadata sections -/

@[simp]
theorem modelSet_not_mem_tail_mapCreated (l : List String) :
    LoadEvent.modelSet ∉ (l.map LoadEvent.urlCreated).tail := by
  cases l with
  | nil => simp
  | cons n ns => simp

/-- "Empty" in the spec's words: null/undefined, a zero-length list, or a
map with no keys; scalars/strings always count as non-empty. -/
def claimEmpty : Option JValue → Bool
  | none => true
  | some .null => true
  | some (.arr xs) => xs.isEmpty
  | some (.obj fs) => fs.isEmpty
  | some _ => false

/-- The source's `hasCustomValue` decides exactly the spec's non-emptiness. -/
theorem hasCustomValue_true_iff (v : Option JValue) :
    hasCustomValue v = true ↔ claimEmpty v = false := by
  rcases v with _ | j
  · simp [hasCustomValue, claimEmpty]
  · cases j <;> simp [hasCustomValue, claimEmpty]

theorem branchOutcome_custom_empty {ext : List Char} (hglb : ext ≠ "glb".data)
    (hgltf : ext ≠ "gltf".data) {oracle : DecodeOracle} {o : Obj3D}
    {a : List String} {c : List CustomSection}
    (h : branchOutcome ext oracle = .okWithUrls o a c) : c = [] := by
  unfold branchOutcome at h
  rw [if_neg (by rintro (h1 | h2); exacts [hglb h1, hgltf h2])] at h
  split_ifs at h <;>
    first
      | (rcases ho : oracle.objResult with e | o' <;> rw [ho] at h <;> simp_all)
      | (rcases ho : oracle.geomResult with e | g <;> rw [ho] at h <;> simp_all)
      | (rcases ho : oracle.usdResult with e | o' <;> rw [ho] at h <;> simp_all)
      | simp_all

/-- C8: a load of any format other than glTF/GLB records empty custom
properties (zero sections), and on a glTF document each of the five section
kinds is included exactly when its payload is non-empty — empty meaning
undefined/null, a zero-length list, or a map with no keys, scalars/strings
always counting as non-empty. -/
theorem customSections_spec :
    (∀ st files source oracle f, pickMainFile files = some f →
      getExtension f.name ≠ "glb".data → getExtension f.name ≠ "gltf".data →
      LoadEvent.modelSet ∈ (loadFiles st files source oracle).2 →
      Option.map ModelRec.customProperties (loadFiles st files source oracle).1.model
        = some []) ∧
    (∀ g : GltfModel,
      (SectionId.asset ∈ (collectGltfCustomSections g).map CustomSection.id ↔
        claimEmpty (nullish g.assetExtras g.jsonAssetExtras) = false) ∧
      (SectionId.root ∈ (collectGltfCustomSections g).map CustomSection.id ↔
        claimEmpty g.jsonExtras = false) ∧
      (SectionId.scene ∈ (collectGltfCustomSections g).map CustomSection.id ↔
        claimEmpty (stripGltfExtensions (g.scene.map Obj3D.userData)) = false) ∧
      (SectionId.nodes ∈ (collectGltfCustomSections g).map CustomSection.id ↔
        nodeEntries g ≠ []) ∧
      (SectionId.materials ∈ (collectGltfCustomSections g).map CustomSection.id ↔
        materialEntries g ≠ [])) := by
  constructor
  · intro st files source oracle f hf hglb hgltf hms
    obtain ⟨mo, er, lo, fs⟩ := st
    have hne : files.isEmpty = false := by
      rcases files with _ | ⟨a, l⟩
      · rw [show pickMainFile [] = none from rfl] at hf; cases hf
      · rfl
    unfold loadFiles at hms ⊢
    rw [if_neg (by simp [hne]), hf] at hms ⊢
    dsimp only at hms ⊢
    cases houtc : branchOutcome (getExtension f.name) oracle with
    | notAttempted =>
      rw [houtc] at hms
      cases mo <;> simp at hms
    | threwWithUrls =>
      rw [houtc] at hms
      cases mo <;> simp at hms
    | threwNoUrls =>
      rw [houtc] at hms
      cases mo <;> simp at hms
    | okNoScene =>
      rw [houtc] at hms
      cases mo <;> simp at hms
    | okWithUrls o a c =>
      have hc := branchOutcome_custom_empty hglb hgltf houtc
      subst hc
      rfl
    | okNoUrls o => rfl
  · intro g
    refine ⟨?_, ?_, ?_, ?_, ?_⟩ <;>
      · unfold collectGltfCustomSections
        dsimp only
        split_ifs <;>
          simp_all [hasCustomValue_true_iff, List.isEmpty_iff]

/-- A successful OBJ decode, for the C8 witness. -/
def okObjOracle : DecodeOracle :=
  ⟨[], .error (), .ok (Obj3D.node "o" "" (.obj []) none []), .error (), .error ()⟩

/-- Witness for C8: a successful OBJ load records zero sections, and a glTF
document with non-empty asset extras gets an `asset` section. -/
theorem customSections_spec_witness :
    Option.map ModelRec.customProperties
      (loadFiles ⟨none, none, false, 0⟩ [⟨"a.obj"⟩] .localFile okObjOracle).1.model
      = some [] ∧
    SectionId.asset ∈ (collectGltfCustomSections
      ⟨some (.str "hi"), none, none, none, []⟩).map CustomSection.id :=
  ⟨customSections_spec.1 ⟨none, none, false, 0⟩ [⟨"a.obj"⟩] .localFile okObjOracle
      ⟨"a.obj"⟩ (by decide) (by decide) (by decide) (by decide),
   (customSections_spec.2 ⟨some (.str "hi"), none, none, none, []⟩).1.mpr (by decide)⟩
